import Mathlib

/-!
Verification of the langkit relational constraint engine specification
against the sources in `langkit/expressions/logic.py` and
`langkit/compiled_types.py`.

The static lowering pass (construction-time checks, generation keys,
operand wrapping) is embedded from the Python source. The runtime
solver (`solve`, `get_value`, domains, And/Or search) lives in generated
Ada code that is not part of the source tree, so it is modelled from the
specification, as are the `memoized` decorator and the generation-key
registry (`do_generate_logic_binder` / `do_generate_logic_predicate`
live in `compile_context.py`, absent from the tree).
-/

namespace Langkit

/-! ## Runtime relation model and solver -/

/-- Modelled from the spec: the `Relation` tagged variant
(`Domain(var, domain)`, `And(children)`, `Or(children)`, `True`,
`False`); `Bind`/`Predicate` filters are not needed by the claims
settled here. Logic variables are identified by `Nat`, candidates by an
arbitrary type `α`. -/
inductive Rel (α : Type) : Type where
  | domain (v : Nat) (dom : List α)
  | rtrue
  | rfalse
  | rand (children : List (Rel α))
  | ror (children : List (Rel α))
deriving Repr

/-- A tentative binding environment: the externally visible state of all
logic variables, unbound variables being absent. -/
abbrev Env (α : Type) : Type := List (Nat × α)

mutual

/-- Modelled from the spec: depth-first enumeration of all satisfying
environments of a relation, in search order. For a `Domain` leaf the
candidates are tried in listed order, tentatively binding the variable
(an already-bound variable is only checked for membership); `And`
threads the accumulating bindings through its children left to right;
`Or` tries its children in listed order. -/
def solutions [DecidableEq α] : Rel α → Env α → List (Env α)
  | .domain v dom, env =>
      match env.lookup v with
      | some c => if c ∈ dom then [env] else []
      | none => dom.map (fun c => (v, c) :: env)
  | .rtrue, env => [env]
  | .rfalse, _ => []
  | .rand cs, env => solveAll cs env
  | .ror cs, env => solveAny cs env

/-- Conjunction search: every child must be satisfied under the
accumulating tentative bindings. -/
def solveAll [DecidableEq α] : List (Rel α) → Env α → List (Env α)
  | [], env => [env]
  | r :: rs, env => (solutions r env).flatMap (fun e => solveAll rs e)

/-- Disjunction search: children are tried in listed order against the
current bindings. -/
def solveAny [DecidableEq α] : List (Rel α) → Env α → List (Env α)
  | [], _ => []
  | r :: rs, env => solutions r env ++ solveAny rs env

end

/-- Modelled from the spec: `solve` commits the bindings of the first
discovered solution and returns true; on overall failure every variable
touched during the search is restored to `Unbound` (the returned
environment is the empty pre-search state) and it returns false. -/
def solveRun [DecidableEq α] (r : Rel α) : Bool × Env α :=
  match solutions r [] with
  | [] => (false, [])
  | e :: _ => (true, e)

/-- Modelled from the spec: `get_value` extracts the value of a logic
variable, `none` being the unset marker. -/
def get_value (env : Env α) (v : Nat) : Option α :=
  env.lookup v

/-! ## Compiled-type model

Embeds the parts of the `CompiledType` world that the lowering pass in
`logic.py` queries: `LogicVarType`, `BoolType`, `LongType`,
`EquationType`, AST node types (`T.root_node` and its subtypes, as
paths from the root so that `tyMatches` is ancestor testing), env-element
(candidate) types, and collection types with an element type. -/

inductive Ty : Type where
  | logicVarT
  | boolT
  | longT
  | equationT
  | nodeT (path : List Nat)
  | envElT (path : List Nat)
  | collectionT (elem : Ty)
deriving DecidableEq, Repr

/-- The root AST node type, `T.root_node`. -/
def root_node : Ty := Ty.nodeT []

/-- The root env-element (candidate) type, `T.root_node.env_el()`. -/
def root_env_el : Ty := Ty.envElT []

/-- Subtype matching, `CompiledType.matches` (named `tyMatches` here
because `matches` is reserved in Lean). A node (resp. env-element)
type matches another when the latter is an ancestor; all other types
match only themselves. -/
def tyMatches : Ty → Ty → Bool
  | Ty.nodeT p, Ty.nodeT q => q.isPrefixOf p
  | Ty.envElT p, Ty.envElT q => q.isPrefixOf p
  | t, u => t == u

/-- Collection-type test, `CompiledType.is_collection`. -/
def is_collection : Ty → Bool
  | Ty.collectionT _ => true
  | _ => false

/-- Element type of a collection, `CompiledType.element_type`. -/
def element_type : Ty → Option Ty
  | Ty.collectionT e => some e
  | _ => none

/-- Env-element (candidate-shaped) type test
(`is_env_element_type`). -/
def is_env_element : Ty → Bool
  | Ty.envElT _ => true
  | _ => false

/-- Property signature, `PropertyDef`: the data the lowering pass reads —
owner type (`struct`), return type (`type`), explicit argument types
(`explicit_arguments`, each read through `.type`), and the stable
`uid`. -/
structure PropertyDef : Type where
  uid : String
  struct : Ty
  retType : Ty
  explicitArgs : List Ty
deriving DecidableEq, Repr

/-! ## Lowering pass: `domain` -/

/-- The `domain` entry point of `logic.py`: `construct` is called on the
domain expression with the predicate `d.is_collection()` and on the
logic-variable expression with the expected type `LogicVarType`; a
failed check raises a diagnostic and produces no relation (modelled as
`Except.error`). Only the types matter to the static checks, so the
result records the two operand types. -/
def domainConstruct (domTy varTy : Ty) : Except String (Ty × Ty) :=
  if !(is_collection domTy) then
    Except.error "Type given to LogicVar must be collection type"
  else if !(tyMatches varTy Ty.logicVarT) then
    Except.error "Expected LogicVarType"
  else
    Except.ok (domTy, varTy)

/-! ## Lowering pass: `Bind` -/

/-- The resolved-expression shapes `Bind.construct.construct_operand`
can return: the operand itself, a `Cast.Expr` to a target type, or a
`New.StructExpr` building an env element whose `MD` field is the
default aggregate. -/
inductive CExpr : Type where
  | operand (t : Ty)
  | cast (e : CExpr) (target : Ty)
  | newEnvEl (el : CExpr) (defaultMD : Bool)
deriving DecidableEq, Repr

/-- Operand lowering, `Bind.construct.construct_operand`: the operand type must be
`LogicVarType`, a subtype of the root node, or a subtype of the root
env element. An env element is cast to the root env-element type unless
it already is exactly that type; a node is cast to the root node type
if needed and then wrapped in a fresh env element with default
metadata; a logic variable is used as is. -/
def construct_operand (t : Ty) : Except String CExpr :=
  if !(t == Ty.logicVarT || tyMatches t root_node || tyMatches t root_env_el) then
    Except.error "Operands to a logic bind operator should be either a logic variable or an ASTNode"
  else if tyMatches t root_env_el then
    Except.ok (if t == root_env_el then CExpr.operand t
               else CExpr.cast (CExpr.operand t) root_env_el)
  else if tyMatches t root_node then
    Except.ok (CExpr.newEnvEl
      (if t == root_node then CExpr.operand t
       else CExpr.cast (CExpr.operand t) root_node) true)
  else
    Except.ok (CExpr.operand t)

/-- The converter-property checks of `Bind.construct`: return type and
owner type must both be subtypes of the root node type. -/
def bindConvPropChecks (p : PropertyDef) : Bool :=
  tyMatches p.retType root_node && tyMatches p.struct root_node

/-- The equality-property checks of `Bind.construct`: must return
boolean, belong to a subtype of the root node type, take exactly one
explicit argument, and that argument must have exactly the owner
type. -/
def bindEqPropChecks (p : PropertyDef) : Except String Unit :=
  if !(p.retType == Ty.boolT) then
    Except.error "Equality property must return boolean"
  else if !(tyMatches p.struct root_node) then
    Except.error "The equality property passed to bind must belong to a subtype of the root node"
  else if !(p.explicitArgs.length == 1) then
    Except.error "Expected 1 argument for eq_prop"
  else if !(p.explicitArgs.head? == some p.struct) then
    Except.error "Self and first argument should be of the same type"
  else
    Except.ok ()

/-- Uid selection in `Bind.construct`: `self.conv_prop.uid` when a
converter is given, the string `Default` otherwise (and the same for
`eq_prop`). -/
def uidOrDefault : Option PropertyDef → String
  | some p => p.uid
  | none => "Default"

/-- GenerationKey: `(converter uid or Default, equality uid or Default)`
for a Bind relation, `(property uid, ordered closure-argument types)`
for a Predicate relation. -/
inductive GenKey : Type where
  | bindK (convUid eqUid : String)
  | predK (propUid : String) (closureTys : List Ty)
deriving DecidableEq, Repr

/-- The generation key a `Bind` construction uses
(`Bind_{cprop_uid}_{eprop_uid}` in the rendered code). -/
def bindGenKey (convProp eqProp : Option PropertyDef) : GenKey :=
  GenKey.bindK (uidOrDefault convProp) (uidOrDefault eqProp)

/-- The generation key a `Predicate` construction uses
(`do_generate_logic_predicate` applied to the closure expression
types). -/
def predGenKey (p : PropertyDef) (closureTys : List Ty) : GenKey :=
  GenKey.predK p.uid closureTys

/-- Operand-construction tail of `Bind.construct`: both operands are
lowered through `construct_operand`, and the rendered call names the
implementation selected by the generation key. -/
def bindConstructOperands (convProp eqProp : Option PropertyDef) (fromTy toTy : Ty) :
    Except String (GenKey × CExpr × CExpr) :=
  match construct_operand fromTy with
  | Except.error m => Except.error m
  | Except.ok lhs =>
      match construct_operand toTy with
      | Except.error m => Except.error m
      | Except.ok rhs => Except.ok (bindGenKey convProp eqProp, lhs, rhs)

/-- Equality-property stage of `Bind.construct`: when an equality
property is given, its checks run before the operands are lowered. -/
def bindConstructEq (convProp eqProp : Option PropertyDef) (fromTy toTy : Ty) :
    Except String (GenKey × CExpr × CExpr) :=
  match eqProp with
  | some e =>
      match bindEqPropChecks e with
      | Except.error m => Except.error m
      | Except.ok _ => bindConstructOperands convProp eqProp fromTy toTy
  | none => bindConstructOperands convProp eqProp fromTy toTy

/-- Whole `Bind.construct`: converter checks, equality checks, then
operand construction for both sides; the result records the generation
key and the two lowered operands. -/
def bindConstruct (convProp eqProp : Option PropertyDef) (fromTy toTy : Ty) :
    Except String (GenKey × CExpr × CExpr) :=
  match convProp with
  | some c =>
      if !(bindConvPropChecks c) then
        Except.error "The property passed to bind must return and belong to a subtype of the root node"
      else bindConstructEq convProp eqProp fromTy toTy
  | none => bindConstructEq convProp eqProp fromTy toTy

/-! ## Lowering pass: `Predicate` -/

/-- Logic-variable test `e.type == LogicVarType` on a resolved argument
expression. -/
def isLogicVar (t : Ty) : Bool := t == Ty.logicVarT

/-- Helper `funcy.split_by(pred, seq)`: the longest prefix satisfying the
predicate, and the rest of the sequence. -/
def splitBy (p : α → Bool) (l : List α) : List α × List α :=
  (l.takeWhile p, l.dropWhile p)

/-- The partitioning checks of `Predicate.construct` on the argument
types: the logic-variable prefix must be non-empty, and no logic
variable may remain in the rest. -/
def predicatePartitionOk (argTys : List Ty) : Bool :=
  decide ((splitBy isLogicVar argTys).1.length > 0)
    && (splitBy isLogicVar argTys).2.all (fun t => !(isLogicVar t))

/-- The per-position type checks of `Predicate.construct`: the argument
types zipped with `[struct] + explicit argument types`; a logic-variable
argument requires the formal to match the root node type, any other
argument must itself match the formal's type. -/
def predicateZipOk (argTys propTys : List Ty) : Bool :=
  (List.zip argTys propTys).all (fun p =>
    if isLogicVar p.1 then tyMatches p.2 root_node else tyMatches p.1 p.2)

/-- Whole `Predicate.construct`: property-signature checks (boolean return,
owner in the node hierarchy), then the partitioning checks, then the
per-position type checks; success yields the generation key built from
the property uid and the closure argument types. -/
def predicateConstruct (p : PropertyDef) (argTys : List Ty) :
    Except String GenKey :=
  if !(tyMatches p.retType Ty.boolT) then
    Except.error "The property passed to predicate must return a boolean"
  else if !(tyMatches p.struct root_node) then
    Except.error "The property passed to bind must belong to a subtype of the root node"
  else if !(decide ((splitBy isLogicVar argTys).1.length > 0)) then
    Except.error "Predicate instantiation should have at least one logic variable expression"
  else if !((splitBy isLogicVar argTys).2.all (fun t => !(isLogicVar t))) then
    Except.error "Logic variable expressions should be grouped at the beginning"
  else if !(predicateZipOk argTys (p.struct :: p.explicitArgs)) then
    Except.error "Predicate argument type mismatch"
  else
    Except.ok (predGenKey p (splitBy isLogicVar argTys).2)

/-! ## Generation-key registry -/

/-- Modelled from the spec: the generation-key registry
(`do_generate_logic_binder` / `do_generate_logic_predicate` in
`compile_context.py`, not in the tree). It maps each `GenKey` to the
one generated implementation (identified by a handle); a key already
present is left untouched, a new key receives a freshly generated
implementation. -/
abbrev Registry : Type := List (GenKey × Nat)

/-- Register a generation key: generate an implementation only on first
encounter. -/
def registerKey (k : GenKey) (fresh : Nat) (reg : Registry) : Registry :=
  if (reg.lookup k).isSome then reg else (k, fresh) :: reg

/-- Preparation step `Bind.do_prepare`: registers the Bind generation key, reading only
the converter and equality properties, before operand type information
is available. -/
def do_prepare (convProp eqProp : Option PropertyDef) (fresh : Nat)
    (reg : Registry) : Registry :=
  registerKey (bindGenKey convProp eqProp) fresh reg

/-- The registry invariant: at most one generated implementation per
key. -/
def registryWF (reg : Registry) : Prop :=
  ∀ k : GenKey, (reg.filter (fun e => e.1 == k)).length ≤ 1

/-! ## Memoized list-type construction -/

/-- A derived list-of-T type artifact: the Python `type(...)` call in
`list_type` creates a fresh class object (identified here by `objId`)
for the given element type. -/
structure TypeObj : Type where
  objId : Nat
  elemTy : Ty
deriving DecidableEq, Repr

/-- The cache the `memoized` decorator keeps for `list_type`, keyed on
the element type. -/
abbrev MemoCache : Type := List (Ty × TypeObj)

/-- Modelled from the spec: `@memoized list_type(element_type)` from
`compiled_types.py` (`utils.memoized` is not in the tree). On a cache
hit the previously created type object is returned unchanged; on a miss
a fresh type object is created and recorded under the element type. -/
def list_type (cache : MemoCache) (elem : Ty) (freshId : Nat) :
    TypeObj × MemoCache :=
  match cache.lookup elem with
  | some obj => (obj, cache)
  | none => (⟨freshId, elem⟩, (elem, ⟨freshId, elem⟩) :: cache)

/-- The memo-cache invariant: at most one derived type per element
type. -/
def memoWF (cache : MemoCache) : Prop :=
  ∀ t : Ty, (cache.filter (fun e => e.1 == t)).length ≤ 1

/-- Success test for a fallible construction: true exactly when a
relation was produced. -/
def isOkE : Except ε α → Bool
  | Except.ok _ => true
  | Except.error _ => false

/-- Claim-shaped condition: no argument resolves to a logic variable. -/
def noVarArg (argTys : List Ty) : Prop :=
  ∀ t ∈ argTys, isLogicVar t = false

/-- Claim-shaped condition: some logic-variable argument appears after
some non-logic-variable argument. -/
def varAfterNonVar (argTys : List Ty) : Prop :=
  ∃ xs t1 ys t2 zs, argTys = xs ++ t1 :: ys ++ t2 :: zs
    ∧ isLogicVar t1 = false ∧ isLogicVar t2 = true

/-! ## Helper lemmas on association lists -/

theorem lookup_none_filter_eq_nil {κ ν : Type} [BEq κ] [LawfulBEq κ]
    {k : κ} {l : List (κ × ν)} (h : l.lookup k = none) :
    l.filter (fun e => e.1 == k) = [] := by
  induction l with
  | nil => rfl
  | cons a as ih =>
      rw [List.lookup] at h
      cases hk : k == a.1 with
      | true => rw [hk] at h; exact absurd h (by simp)
      | false =>
          rw [hk] at h
          have h2 : (a.1 == k) = false :=
            beq_eq_false_iff_ne.mpr (Ne.symm (beq_eq_false_iff_ne.mp hk))
          simpa [List.filter, h2] using ih h

theorem filter_key_le_one_insert {κ ν : Type} [BEq κ] [LawfulBEq κ]
    {k : κ} {v : ν} {l : List (κ × ν)}
    (hnone : l.lookup k = none)
    (h : ∀ k2 : κ, (l.filter (fun e => e.1 == k2)).length ≤ 1) :
    ∀ k2 : κ, (((k, v) :: l).filter (fun e => e.1 == k2)).length ≤ 1 := by
  intro k2
  cases hk : k == k2 with
  | true =>
      have hkk : k = k2 := eq_of_beq hk
      subst hkk
      simp [List.filter, lookup_none_filter_eq_nil hnone]
  | false => simpa [List.filter, hk] using h k2

/-! ## Claim theorems -/

/-- C1: a failed `solve` leaves no externally visible partial binding —
whenever `solveRun` returns false, `get_value` yields the unset marker
for every variable; in particular solving
`All([Domain(A,[1,2]), LogicFalse()])` fails and afterwards
`get_value(A)` is unset. -/
theorem solve_failure_rolls_back :
    (∀ r : Rel Nat, (solveRun r).1 = false →
       ∀ v : Nat, get_value (solveRun r).2 v = none)
    ∧ (solveRun (Rel.rand [Rel.domain 0 [1, 2], Rel.rfalse] : Rel Nat)).1 = false
    ∧ get_value (solveRun (Rel.rand [Rel.domain 0 [1, 2], Rel.rfalse] : Rel Nat)).2 0
        = none := by
  refine ⟨?_, by decide, by decide⟩
  intro r h v
  cases hs : solutions r ([] : Env Nat) with
  | nil => simp [solveRun, hs, get_value, List.lookup]
  | cons e es => simp [solveRun, hs] at h

/-- Closed witness for the rollback theorem at a concrete failing
equation. -/
theorem solve_failure_rolls_back_witness :
    get_value (solveRun (Rel.rand [Rel.domain 5 [1, 2], Rel.rfalse] : Rel Nat)).2 5
      = none :=
  solve_failure_rolls_back.1 (Rel.rand [Rel.domain 5 [1, 2], Rel.rfalse]) (by decide) 5

/-- C7 counterexample: a domain expression whose type is a collection of
`LongType` — element type neither node-compatible nor candidate-shaped —
passes `domain` construction with no error and produces a relation,
contradicting the claim that such a domain is rejected. -/
theorem domain_element_type_not_checked :
    domainConstruct (Ty.collectionT Ty.longT) Ty.logicVarT
      = Except.ok (Ty.collectionT Ty.longT, Ty.logicVarT)
    ∧ element_type (Ty.collectionT Ty.longT) = some Ty.longT
    ∧ tyMatches Ty.longT root_node = false
    ∧ is_env_element Ty.longT = false := by
  refine ⟨rfl, rfl, rfl, rfl⟩

/-- C7 (amended): `domain` construction reports a fatal error and
produces no relation whenever the domain expression is not of a
collection type; the element type of a collection is never checked —
every collection-typed domain over a logic variable constructs
successfully. -/
theorem domain_requires_collection :
    (∀ domTy varTy : Ty, is_collection domTy = false →
       ∃ m, domainConstruct domTy varTy = Except.error m)
    ∧ (∀ elemTy : Ty,
        domainConstruct (Ty.collectionT elemTy) Ty.logicVarT
          = Except.ok (Ty.collectionT elemTy, Ty.logicVarT)) := by
  constructor
  · intro domTy varTy h
    exact ⟨"Type given to LogicVar must be collection type",
           by simp [domainConstruct, h]⟩
  · intro elemTy
    simp [domainConstruct, is_collection, tyMatches]

/-- Closed witness for the amended domain-construction theorem. -/
theorem domain_requires_collection_witness :
    ∃ m, domainConstruct Ty.boolT Ty.logicVarT = Except.error m :=
  domain_requires_collection.1 Ty.boolT Ty.logicVarT (by decide)

/-- C10: `Bind` operand lowering — a logic variable is used as is; an
env-element (candidate) operand is only cast to the root candidate type
(never re-wrapped), and left untouched when it already has exactly that
type; a node operand is upcast to the root node type when needed and
wrapped into a candidate with default (empty) metadata; anything else
is a static error stating the operand must be a logic variable or an
AST node. -/
theorem bind_operand_lowering (t : Ty) :
    (t = Ty.logicVarT → construct_operand t = Except.ok (CExpr.operand t))
    ∧ (is_env_element t = true →
        construct_operand t = Except.ok
          (if t = root_env_el then CExpr.operand t
           else CExpr.cast (CExpr.operand t) root_env_el))
    ∧ (tyMatches t root_node = true →
        construct_operand t = Except.ok
          (CExpr.newEnvEl
            (if t = root_node then CExpr.operand t
             else CExpr.cast (CExpr.operand t) root_node) true))
    ∧ (t ≠ Ty.logicVarT → tyMatches t root_node = false →
        tyMatches t root_env_el = false →
        construct_operand t = Except.error
          "Operands to a logic bind operator should be either a logic variable or an ASTNode") := by
  refine ⟨?_, ?_, ?_, ?_⟩
  · rintro rfl
    rfl
  · intro h
    cases t <;> simp [is_env_element] at h
    rename_i path
    simp [construct_operand, tyMatches, root_env_el, root_node, List.isPrefixOf]
  · intro h
    cases t <;> simp [tyMatches, root_node] at h
    rename_i path
    by_cases hp : path = []
    · subst hp
      rfl
    · simp [construct_operand, tyMatches, root_env_el, root_node,
            List.isPrefixOf, hp]
  · intro h1 h2 h3
    have hb : (t == Ty.logicVarT) = false := beq_eq_false_iff_ne.mpr h1
    simp [construct_operand, hb, h2, h3]

/-- Closed witness for the operand-lowering theorem at the
logic-variable case. -/
theorem bind_operand_lowering_witness :
    construct_operand Ty.logicVarT = Except.ok (CExpr.operand Ty.logicVarT) :=
  (bind_operand_lowering Ty.logicVarT).1 rfl

/-- C4: generation keys — a `Bind` relation's key is the pair of the
converter uid (or `Default`) and the equality uid (or `Default`); a
`Predicate` relation's key is the property uid with the ordered closure
argument types; the registry keeps at most one generated implementation
per key and registering an already-present key changes nothing (the
implementation is reused); `Bind.do_prepare` registers the key using
only the converter and equality properties, before any operand type
information exists. -/
theorem generation_key_registry :
    (∀ c e : PropertyDef,
       bindGenKey (some c) (some e) = GenKey.bindK c.uid e.uid
       ∧ bindGenKey (some c) none = GenKey.bindK c.uid "Default"
       ∧ bindGenKey none (some e) = GenKey.bindK "Default" e.uid)
    ∧ bindGenKey none none = GenKey.bindK "Default" "Default"
    ∧ (∀ (p : PropertyDef) (tys : List Ty),
        predGenKey p tys = GenKey.predK p.uid tys)
    ∧ (∀ (k : GenKey) (fresh : Nat) (reg : Registry),
        registryWF reg → registryWF (registerKey k fresh reg))
    ∧ (∀ (k : GenKey) (f1 f2 : Nat) (reg : Registry),
        registerKey k f2 (registerKey k f1 reg) = registerKey k f1 reg)
    ∧ (∀ (convProp eqProp : Option PropertyDef) (fresh : Nat) (reg : Registry),
        ((do_prepare convProp eqProp fresh reg).lookup
          (bindGenKey convProp eqProp)).isSome = true) := by
  refine ⟨fun c e => ⟨rfl, rfl, rfl⟩, rfl, fun p tys => rfl, ?_, ?_, ?_⟩
  · intro k fresh reg hwf
    unfold registerKey
    cases hl : (reg.lookup k).isSome with
    | true => simpa [hl] using hwf
    | false =>
        have hnone : reg.lookup k = none := by
          cases h : reg.lookup k with
          | none => rfl
          | some v => rw [h] at hl; simp at hl
        simp only [hl, Bool.false_eq_true, if_false]
        exact filter_key_le_one_insert hnone hwf
  · intro k f1 f2 reg
    unfold registerKey
    cases hl : (reg.lookup k).isSome with
    | true => simp [hl]
    | false => simp [hl, List.lookup]
  · intro convProp eqProp fresh reg
    unfold do_prepare registerKey
    cases hl : (reg.lookup (bindGenKey convProp eqProp)).isSome with
    | true => simp [hl]
    | false => simp [hl, List.lookup]

/-- Closed witness for the generation-key theorem: registering the
default Bind key in an empty registry preserves the at-most-one
invariant. -/
theorem generation_key_registry_witness :
    registryWF (registerKey (GenKey.bindK "Default" "Default") 0 []) :=
  generation_key_registry.2.2.2.1 (GenKey.bindK "Default" "Default") 0 []
    (fun k => by simp)

/-- C9: memoized list-type construction — two `list_type` calls with the
same element type return the identical derived type object, the second
call leaving the cache untouched; the cache, keyed on the element type,
holds at most one derived type per element type. -/
theorem list_type_memoized :
    (∀ (cache : MemoCache) (elem : Ty) (f1 f2 : Nat),
       (list_type (list_type cache elem f1).2 elem f2).1
         = (list_type cache elem f1).1
       ∧ (list_type (list_type cache elem f1).2 elem f2).2
         = (list_type cache elem f1).2)
    ∧ (∀ (cache : MemoCache) (elem : Ty) (f : Nat),
        memoWF cache → memoWF (list_type cache elem f).2) := by
  constructor
  · intro cache elem f1 f2
    cases hl : cache.lookup elem with
    | some obj => constructor <;> simp [list_type, hl]
    | none => constructor <;> simp [list_type, hl, List.lookup]
  · intro cache elem f hwf
    cases hl : cache.lookup elem with
    | some obj => simpa [list_type, hl] using hwf
    | none =>
        simp only [list_type, hl]
        exact filter_key_le_one_insert hl hwf

/-- Closed witness for the memoization theorem: the invariant-preserving
part applied to the empty cache. -/
theorem list_type_memoized_witness :
    memoWF (list_type [] Ty.boolT 0).2 :=
  list_type_memoized.2 [] Ty.boolT 0 (fun t => by simp)

/-- C2: for an unbound variable `A`, `Domain(A,D1) ∨ Domain(A,D2)` tries
exactly the candidates `D1 ++ D2` in that concatenated order — no
reordering, no deduplication — so its solution list coincides with that
of `Domain(A, D1 ++ D2)` and the two equations are equisatisfiable. -/
theorem or_domains_concatenate (A : Nat) (d1 d2 : List Nat) (env : Env Nat)
    (h : env.lookup A = none) :
    solutions (Rel.ror [Rel.domain A d1, Rel.domain A d2]) env
      = (d1 ++ d2).map (fun c => (A, c) :: env)
    ∧ solutions (Rel.domain A (d1 ++ d2)) env
      = (d1 ++ d2).map (fun c => (A, c) :: env)
    ∧ (solutions (Rel.ror [Rel.domain A d1, Rel.domain A d2]) env ≠ []
        ↔ solutions (Rel.domain A (d1 ++ d2)) env ≠ []) := by
  have h1 : solutions (Rel.ror [Rel.domain A d1, Rel.domain A d2]) env
      = (d1 ++ d2).map (fun c => (A, c) :: env) := by
    simp [solutions, solveAny, h]
  have h2 : solutions (Rel.domain A (d1 ++ d2)) env
      = (d1 ++ d2).map (fun c => (A, c) :: env) := by
    simp [solutions, h]
  exact ⟨h1, h2, by rw [h1, h2]⟩

/-- Closed witness for the domain-concatenation theorem:
`Domain(A,[1,2]) ∨ Domain(A,[3,4])` tries `1,2,3,4` in that order. -/
theorem or_domains_concatenate_witness :
    solutions (Rel.ror [Rel.domain 0 [1, 2], Rel.domain 0 [3, 4]]) ([] : Env Nat)
      = [[(0, 1)], [(0, 2)], [(0, 3)], [(0, 4)]]
    ∧ solutions (Rel.domain 0 ([1, 2] ++ [3, 4])) ([] : Env Nat)
      = [[(0, 1)], [(0, 2)], [(0, 3)], [(0, 4)]] := by
  have h := or_domains_concatenate 0 [1, 2] [3, 4] [] rfl
  exact ⟨h.1, h.2.1⟩

/-- C3: solving `Domain(A,[a1,a2]) ∧ Domain(B,[b1,b2])` succeeds and
commits `A = a1`, `B = b1` — the first candidate of each domain — with
the depth-first search exploring `A` outermost (the full solution order
runs through `B`'s candidates before advancing `A`), and only the first
discovered solution is produced by `solve`. -/
theorem and_two_domains_first_solution (A B : Nat) (hAB : A ≠ B)
    (a1 a2 b1 b2 : Nat) :
    solutions (Rel.rand [Rel.domain A [a1, a2], Rel.domain B [b1, b2]])
        ([] : Env Nat)
      = [[(B, b1), (A, a1)], [(B, b2), (A, a1)],
         [(B, b1), (A, a2)], [(B, b2), (A, a2)]]
    ∧ (solveRun (Rel.rand [Rel.domain A [a1, a2], Rel.domain B [b1, b2]])).1
        = true
    ∧ get_value
        (solveRun (Rel.rand [Rel.domain A [a1, a2], Rel.domain B [b1, b2]])).2 A
        = some a1
    ∧ get_value
        (solveRun (Rel.rand [Rel.domain A [a1, a2], Rel.domain B [b1, b2]])).2 B
        = some b1 := by
  have hBA : (B == A) = false := beq_eq_false_iff_ne.mpr (Ne.symm hAB)
  have hAB2 : (A == B) = false := beq_eq_false_iff_ne.mpr hAB
  have hsol : solutions (Rel.rand [Rel.domain A [a1, a2], Rel.domain B [b1, b2]])
      ([] : Env Nat)
      = [[(B, b1), (A, a1)], [(B, b2), (A, a1)],
         [(B, b1), (A, a2)], [(B, b2), (A, a2)]] := by
    simp [solutions, solveAll, List.lookup, hBA]
  refine ⟨hsol, ?_, ?_, ?_⟩
  · simp [solveRun, hsol]
  · simp [solveRun, hsol, get_value, List.lookup, hAB2]
  · simp [solveRun, hsol, get_value, List.lookup]

/-- Closed witness for the two-domain conjunction theorem at concrete
variables and candidates. -/
theorem and_two_domains_first_solution_witness :
    (solveRun (Rel.rand [Rel.domain 0 [10, 20], Rel.domain 1 [30, 40]])).1 = true
    ∧ get_value (solveRun (Rel.rand [Rel.domain 0 [10, 20],
        Rel.domain 1 [30, 40]])).2 0 = some 10
    ∧ get_value (solveRun (Rel.rand [Rel.domain 0 [10, 20],
        Rel.domain 1 [30, 40]])).2 1 = some 30 := by
  have h := and_two_domains_first_solution 0 1 (by decide) 10 20 30 40
  exact ⟨h.2.1, h.2.2.1, h.2.2.2⟩

/-- C8: the equality-property checks of `Bind.construct` pass exactly
when the property returns boolean, belongs to a subtype of the root
node type, takes exactly one explicit parameter besides its receiver,
and that parameter's type equals the receiver's type; when any of these
fails, the whole `Bind` construction with that equality property aborts
with a diagnostic and produces no relation. -/
theorem bind_eq_prop_checked (p : PropertyDef) :
    (bindEqPropChecks p = Except.ok () ↔
      (p.retType = Ty.boolT ∧ tyMatches p.struct root_node = true
       ∧ p.explicitArgs.length = 1 ∧ p.explicitArgs.head? = some p.struct))
    ∧ (∀ (convProp : Option PropertyDef) (fromTy toTy : Ty),
        ¬(p.retType = Ty.boolT ∧ tyMatches p.struct root_node = true
          ∧ p.explicitArgs.length = 1 ∧ p.explicitArgs.head? = some p.struct) →
        ∃ m, bindConstruct convProp (some p) fromTy toTy = Except.error m) := by
  have hiff : bindEqPropChecks p = Except.ok () ↔
      (p.retType = Ty.boolT ∧ tyMatches p.struct root_node = true
       ∧ p.explicitArgs.length = 1 ∧ p.explicitArgs.head? = some p.struct) := by
    unfold bindEqPropChecks
    split_ifs with h1 h2 h3 h4 <;> simp_all
  refine ⟨hiff, ?_⟩
  intro convProp fromTy toTy hneg
  have herr : ∃ m, bindEqPropChecks p = Except.error m := by
    cases he : bindEqPropChecks p with
    | error m => exact ⟨m, rfl⟩
    | ok u =>
        cases u
        exact absurd (hiff.mp he) hneg
  obtain ⟨m, hm⟩ := herr
  cases convProp with
  | none => exact ⟨m, by simp [bindConstruct, bindConstructEq, hm]⟩
  | some c =>
      by_cases hc : bindConvPropChecks c = true
      · exact ⟨m, by simp [bindConstruct, bindConstructEq, hc, hm]⟩
      · exact ⟨"The property passed to bind must return and belong to a subtype of the root node",
               by simp [bindConstruct, Bool.eq_false_iff.mpr hc]⟩

/-- Closed witness for the equality-property theorem: a property
returning `LongType` is rejected, aborting the Bind construction. -/
theorem bind_eq_prop_checked_witness :
    ∃ m, bindConstruct none
      (some ⟨"p1", root_node, Ty.longT, [root_node]⟩)
      Ty.logicVarT Ty.logicVarT = Except.error m :=
  (bind_eq_prop_checked ⟨"p1", root_node, Ty.longT, [root_node]⟩).2
    none Ty.logicVarT Ty.logicVarT (by simp)

/-- A logic variable survives into the dropped suffix of the
`split_by` partition exactly when some logic-variable argument follows
some non-logic-variable argument. -/
theorem varAfterNonVar_iff (l : List Ty) :
    varAfterNonVar l ↔ ∃ t2 ∈ l.dropWhile isLogicVar, isLogicVar t2 = true := by
  induction l with
  | nil =>
      constructor
      · rintro ⟨xs, t1, ys, t2, zs, h, h1, h2⟩
        have := congrArg List.length h
        simp at this
        omega
      · rintro ⟨t2, h, _⟩
        simp [List.dropWhile] at h
  | cons a t ih =>
      cases ha : isLogicVar a with
      | true =>
          rw [List.dropWhile_cons_of_pos (by simp [ha])]
          rw [← ih]
          constructor
          · rintro ⟨xs, t1, ys, t2, zs, h, h1, h2⟩
            cases xs with
            | nil =>
                simp only [List.nil_append, List.cons_append] at h
                injection h with hat ht
                rw [hat] at ha
                rw [ha] at h1
                cases h1
            | cons x xs2 =>
                simp only [List.cons_append] at h
                injection h with hax ht
                exact ⟨xs2, t1, ys, t2, zs, by simp [ht], h1, h2⟩
          · rintro ⟨xs, t1, ys, t2, zs, h, h1, h2⟩
            exact ⟨a :: xs, t1, ys, t2, zs, by simp [h], h1, h2⟩
      | false =>
          rw [List.dropWhile_cons_of_neg (by simp [ha])]
          constructor
          · rintro ⟨xs, t1, ys, t2, zs, h, h1, h2⟩
            refine ⟨t2, ?_, h2⟩
            rw [h]
            simp
          · rintro ⟨t2, hmem, h2⟩
            rcases List.mem_cons.mp hmem with rfl | hmem2
            · rw [ha] at h2
              cases h2
            · obtain ⟨s, u, hsu⟩ := List.append_of_mem hmem2
              exact ⟨[], a, s, t2, u, by simp [hsu], ha, h2⟩

/-- The per-position zipped type check is equivalent to the
claim-shaped alignment statement over indices. -/
theorem predicateZipOk_iff (l1 l2 : List Ty) :
    predicateZipOk l1 l2 = true ↔
      ∀ (i : Nat) (h1 : i < l1.length) (h2 : i < l2.length),
        (isLogicVar (l1.get ⟨i, h1⟩) = true →
          tyMatches (l2.get ⟨i, h2⟩) root_node = true)
        ∧ (isLogicVar (l1.get ⟨i, h1⟩) = false →
          tyMatches (l1.get ⟨i, h1⟩) (l2.get ⟨i, h2⟩) = true) := by
  induction l1 generalizing l2 with
  | nil => simp [predicateZipOk]
  | cons a t1 ih =>
      cases l2 with
      | nil => simp [predicateZipOk]
      | cons b t2 =>
          have e : predicateZipOk (a :: t1) (b :: t2)
              = ((if isLogicVar a then tyMatches b root_node else tyMatches a b)
                 && predicateZipOk t1 t2) := by
            simp [predicateZipOk]
          rw [e, Bool.and_eq_true, ih t2]
          constructor
          · rintro ⟨hab, hrest⟩ i h1 h2
            cases i with
            | zero =>
                simp only [List.get]
                constructor
                · intro hv
                  rw [hv] at hab
                  simpa using hab
                · intro hv
                  rw [hv] at hab
                  simpa using hab
            | succ j =>
                have := hrest j (by simpa using h1) (by simpa using h2)
                simpa [List.get] using this
          · intro h
            constructor
            · have h0 := h 0 (by simp) (by simp)
              simp only [List.get] at h0
              cases hv : isLogicVar a with
              | true => simp [hv, h0.1 hv]
              | false => simp [hv, h0.2 hv]
            · intro j hj1 hj2
              have := h (j + 1) (by simpa using hj1) (by simpa using hj2)
              simpa [List.get] using this

/-- C5: `Predicate` construction partitions its arguments into a
logic-variable prefix and closure rest; it reports a fatal static error
and produces no relation exactly when there is no logic-variable
argument or a logic-variable argument appears after a
non-logic-variable argument, and in every such case the whole
construction aborts with an error whatever the property signature. -/
theorem predicate_variable_grouping (argTys : List Ty) :
    (predicatePartitionOk argTys = false ↔ noVarArg argTys ∨ varAfterNonVar argTys)
    ∧ (∀ p : PropertyDef, noVarArg argTys ∨ varAfterNonVar argTys →
        isOkE (predicateConstruct p argTys) = false) := by
  have hiff : predicatePartitionOk argTys = false ↔
      noVarArg argTys ∨ varAfterNonVar argTys := by
    rw [varAfterNonVar_iff]
    unfold predicatePartitionOk splitBy noVarArg
    cases argTys with
    | nil => simp
    | cons a t =>
        cases ha : isLogicVar a with
        | false =>
            rw [List.takeWhile_cons_of_neg (by simp [ha]),
                List.dropWhile_cons_of_neg (by simp [ha])]
            constructor
            · intro _
              by_cases h : ∀ x ∈ a :: t, isLogicVar x = false
              · exact Or.inl h
              · push_neg at h
                obtain ⟨x, hx, hxv⟩ := h
                exact Or.inr ⟨x, hx, by revert hxv; cases isLogicVar x <;> simp⟩
            · intro _
              simp
        | true =>
            rw [List.takeWhile_cons_of_pos (by simp [ha]),
                List.dropWhile_cons_of_pos (by simp [ha])]
            have hd : decide ((a :: List.takeWhile isLogicVar t).length > 0)
                = true := by
              simp
            rw [hd, Bool.true_and]
            constructor
            · intro h
              rcases List.all_eq_false.mp h with ⟨x, hx, hxv⟩
              exact Or.inr ⟨x, hx, by revert hxv; cases isLogicVar x <;> simp⟩
            · rintro (h | ⟨x, hx, hxv⟩)
              · exact absurd (h a (by simp)) (by simp [ha])
              · exact List.all_eq_false.mpr ⟨x, hx, by simp [hxv]⟩
  refine ⟨hiff, ?_⟩
  intro p hP
  have hf : predicatePartitionOk argTys = false := hiff.mpr hP
  unfold predicateConstruct
  cases hr : tyMatches p.retType Ty.boolT with
  | false => simp [hr, isOkE]
  | true =>
      cases hs : tyMatches p.struct root_node with
      | false => simp [hr, hs, isOkE]
      | true =>
          unfold predicatePartitionOk at hf
          cases hA : decide ((splitBy isLogicVar argTys).1.length > 0) with
          | false => simp [hr, hs, hA, isOkE]
          | true =>
              rw [hA, Bool.true_and] at hf
              simp [hr, hs, hA, hf, isOkE]

/-- Closed witness for the partition theorem: a closure argument before
a logic-variable argument aborts the construction. -/
theorem predicate_variable_grouping_witness :
    isOkE (predicateConstruct ⟨"p2", root_node, Ty.boolT, [root_node]⟩
      [Ty.boolT, Ty.logicVarT]) = false :=
  (predicate_variable_grouping [Ty.boolT, Ty.logicVarT]).2
    ⟨"p2", root_node, Ty.boolT, [root_node]⟩
    (Or.inr ⟨[], Ty.boolT, [], Ty.logicVarT, [], rfl, rfl, rfl⟩)

/-- C6: once the partitioning check passes, `Predicate` construction
succeeds exactly when every argument position aligns with its formal
parameter — the receiver type at position 0, then the explicit
parameters in order: a logic-variable argument needs a formal whose
type is a subtype of the root node type, a closure argument must have a
type assignable to the formal's type; any mismatch aborts the
construction. -/
theorem predicate_argument_type_check (p : PropertyDef) (argTys : List Ty)
    (hret : tyMatches p.retType Ty.boolT = true)
    (hstruct : tyMatches p.struct root_node = true)
    (hpart : predicatePartitionOk argTys = true) :
    isOkE (predicateConstruct p argTys) = true ↔
      ∀ (i : Nat) (h1 : i < argTys.length)
        (h2 : i < (p.struct :: p.explicitArgs).length),
        (isLogicVar (argTys.get ⟨i, h1⟩) = true →
          tyMatches ((p.struct :: p.explicitArgs).get ⟨i, h2⟩) root_node = true)
        ∧ (isLogicVar (argTys.get ⟨i, h1⟩) = false →
          tyMatches (argTys.get ⟨i, h1⟩)
            ((p.struct :: p.explicitArgs).get ⟨i, h2⟩) = true) := by
  rw [← predicateZipOk_iff]
  unfold predicateConstruct
  unfold predicatePartitionOk at hpart
  rw [Bool.and_eq_true] at hpart
  obtain ⟨hA, hB⟩ := hpart
  cases hz : predicateZipOk argTys (p.struct :: p.explicitArgs) with
  | true => simp [hret, hstruct, hA, hB, hz, isOkE]
  | false => simp [hret, hstruct, hA, hB, hz, isOkE]

/-- Closed witness for the argument-alignment theorem: a single
logic-variable argument against a boolean property on the root node
constructs successfully. -/
theorem predicate_argument_type_check_witness :
    isOkE (predicateConstruct ⟨"p3", root_node, Ty.boolT, []⟩
      [Ty.logicVarT]) = true :=
  (predicate_argument_type_check ⟨"p3", root_node, Ty.boolT, []⟩
      [Ty.logicVarT] rfl rfl rfl).mpr
    (by
      intro i h1 h2
      have hi : i = 0 := by
        simp at h1
        omega
      subst hi
      exact ⟨fun _ => rfl, fun hv => by simp [isLogicVar] at hv⟩)

end Langkit
